import Mathlib

/-!
Verification of the statistical-analysis toolkit in
`src/scripts/utils/processing.py`.

The toolkit operates on in-memory tabular data (pandas DataFrames) and
delegates the numeric statistical routines to scipy.  The shallow embedding
models:

* a dataset as a `List Row` for an abstract row type, with column access
  modelled as accessor functions `Row → α` (a pandas `df[col]` projection);
* numeric cell values as `ℚ` (exact rationals standing in for floats; every
  comparison the code performs — `p < 0.05`, `pct > threshold`, sort keys —
  is an exact order comparison, faithfully represented on `ℚ`);
* the delegated scipy routines (`ttest_ind`, `chi2_contingency`, `f_oneway`,
  `mannwhitneyu`) as function parameters returning a `(stat, p_value)` pair,
  since the repository explicitly does not reimplement them; properties of
  their outputs enter theorems as hypotheses taken from their documented
  contracts, and the Mann-Whitney U statistic (whose exact value one claim
  depends on) is additionally given a concrete executable definition;
* pandas scalar results (which may be NaN or an absent Python `None`) as
  `Option PdScalar`, where `none` is Python `None` and `PdScalar.nan` is a
  float NaN.
-/

/-- Result record returned by every test runner in `processing.py`:
the dict `{"stat": stat, "p_value": p_value, "significant": p_value < 0.05}`. -/
structure TestResult where
  stat : ℚ
  p_value : ℚ
  significant : Bool
  deriving DecidableEq, Repr

/-- Shared result construction of the four runners: each binds
`stat, p_value = <scipy routine>(...)` and returns the dict with
`significant` computed as `p_value < 0.05`. -/
def mkTestResult (sp : ℚ × ℚ) : TestResult :=
  { stat := sp.1, p_value := sp.2, significant := decide (sp.2 < 5/100) }

/-- Embeds `perform_t_test(group_a, group_b, metric)`: it projects column
`metric` out of both groups, hands the two samples to the delegated
`ttest_ind` routine (passed here as the parameter `ttest_ind`), and wraps the
returned pair in the result dict. -/
def perform_t_test {Row : Type} (ttest_ind : List ℚ → List ℚ → ℚ × ℚ)
    (group_a group_b : List Row) (metric : Row → ℚ) : TestResult :=
  mkTestResult (ttest_ind (group_a.map metric) (group_b.map metric))

/-- Embeds `perform_chi2_test(contingency_table)`: hands the table to the
delegated `chi2_contingency` routine and wraps the `(stat, p_value)` part of
its output in the result dict. -/
def perform_chi2_test {Table : Type} (chi2_contingency : Table → ℚ × ℚ)
    (contingency_table : Table) : TestResult :=
  mkTestResult (chi2_contingency contingency_table)

/-- Embeds `perform_anova_test(*groups)`: hands the variadic list of numeric
groups to the delegated `f_oneway` routine and wraps its output. -/
def perform_anova_test (f_oneway : List (List ℚ) → ℚ × ℚ)
    (groups : List (List ℚ)) : TestResult :=
  mkTestResult (f_oneway groups)

/-- Embeds `perform_mannwhitneyu_test(group_a, group_b, metric)`: projects
column `metric` out of both groups, hands the samples to the delegated
two-sided `mannwhitneyu` routine, and wraps its output. -/
def perform_mannwhitneyu_test {Row : Type} (mannwhitneyu : List ℚ → List ℚ → ℚ × ℚ)
    (group_a group_b : List Row) (metric : Row → ℚ) : TestResult :=
  mkTestResult (mannwhitneyu (group_a.map metric) (group_b.map metric))

/-- Embeds `segment_data(data, column, values_group_a, values_group_b)`:
`group_a = data[data[column].isin(values_group_a)]` and likewise for
`group_b`; each group is the subsequence of rows whose value in `column`
belongs to the corresponding value set. -/
def segment_data {Row V : Type} [DecidableEq V] (data : List Row) (column : Row → V)
    (values_group_a values_group_b : List V) : List Row × List Row :=
  (data.filter (fun r => decide (column r ∈ values_group_a)),
   data.filter (fun r => decide (column r ∈ values_group_b)))

/-- Scalar value a pandas reduction can produce: a number or a float NaN
(`Series.mean()` of an empty selection is NaN, `Series.sum()` of an empty
selection is 0). -/
inductive PdScalar where
  | num (q : ℚ)
  | nan
  deriving DecidableEq, Repr

/-- Embeds `Series.mean()` on the list of values of the selected column:
NaN when the series is empty, otherwise the arithmetic mean. -/
def seriesMean (xs : List ℚ) : PdScalar :=
  if xs.isEmpty then PdScalar.nan else PdScalar.num (xs.sum / xs.length)

/-- Embeds `Series.sum()` on the list of values of the selected column:
0 when the series is empty. -/
def seriesSum (xs : List ℚ) : PdScalar :=
  PdScalar.num xs.sum

/-- Embeds `compute_metric(data, column, condition, metric_col, operation)`:
filters rows with `data[column] == condition`, then reduces `metric_col` by
`operation`; the `if/elif` chain has no `else`, so an unrecognized operation
falls off the end of the function and yields Python `None` (here
`Option.none`). -/
def compute_metric {Row V : Type} [DecidableEq V] (data : List Row) (column : Row → V)
    (condition : V) (metric_col : Row → ℚ) (operation : String) : Option PdScalar :=
  let subset := data.filter (fun r => decide (column r = condition))
  if operation = "mean" then some (seriesMean (subset.map metric_col))
  else if operation = "sum" then some (seriesSum (subset.map metric_col))
  else none

/-- Sorted list of the distinct group keys of a column, as produced by
`DataFrame.groupby(col)` with its default `sort=True`: the groups are
enumerated once per distinct key, in ascending order of the key. -/
def sortedKeys {K : Type} [LinearOrder K] [DecidableEq K] (ks : List K) : List K :=
  List.insertionSort (· ≤ ·) ks.dedup

/-- Row of the SavingsSummary table built by `calculate_cost_savings`: after
`reset_index()` the group key is an ordinary column alongside the four
numeric columns. -/
structure SavingsRow (K : Type) where
  key : K
  TotalCost : ℚ
  TotalClaims : ℚ
  SavingsPotential : ℚ
  SavingsPercentage : ℚ
  deriving DecidableEq, Repr

/-- Embeds `calculate_cost_savings(data, group_col, cost_col, claim_col)`:
`data.groupby(group_col).agg(TotalCost=(cost_col,"sum"), TotalClaims=(claim_col,"sum"))`
followed by the two derived-column assignments and `reset_index()`.  For each
distinct group key (ascending, the groupby default order) it sums the cost and
claim columns over the rows of the group and derives SavingsPotential and
SavingsPercentage. -/
def calculate_cost_savings {Row K : Type} [LinearOrder K] [DecidableEq K] (data : List Row)
    (group_col : Row → K) (cost_col claim_col : Row → ℚ) : List (SavingsRow K) :=
  (sortedKeys (data.map group_col)).map fun k =>
    let grp := data.filter (fun r => decide (group_col r = k))
    let tc := (grp.map cost_col).sum
    let tcl := (grp.map claim_col).sum
    { key := k, TotalCost := tc, TotalClaims := tcl,
      SavingsPotential := tc - tcl,
      SavingsPercentage := (tc - tcl) / tc * 100 }

/-- Three-row Province example of the spec (§8): rows are
(Province, TotalPremium, TotalClaims) triples. -/
def provinceExample : List (String × ℚ × ℚ) :=
  [("A", 100, 40), ("A", 50, 30), ("B", 200, 250)]

/-- Descending comparison on SavingsPercentage used by
`sort_values(by="SavingsPercentage", ascending=False)`: row `r` may precede
row `s` when the percentage of `s` is at most that of `r`. -/
def pctDesc {K : Type} (r s : SavingsRow K) : Prop :=
  s.SavingsPercentage ≤ r.SavingsPercentage

instance {K : Type} : DecidableRel (pctDesc (K := K)) := fun r s =>
  inferInstanceAs (Decidable (s.SavingsPercentage ≤ r.SavingsPercentage))

instance {K : Type} : IsTotal (SavingsRow K) pctDesc :=
  ⟨fun a b => le_total b.SavingsPercentage a.SavingsPercentage⟩

instance {K : Type} : IsTrans (SavingsRow K) pctDesc :=
  ⟨fun _ _ _ h1 h2 => le_trans h2 h1⟩

/-- Embeds `rank_savings_opportunities(savings_summary, threshold)`: keeps the
rows with `SavingsPercentage > threshold`, sorts them by SavingsPercentage
descending, and (`reset_index(drop=True)`) returns them as a freshly
numbered plain list.  The default quicksort kind of `sort_values` leaves the
relative order of equal keys unspecified; the embedding fixes one sorted
rearrangement (a stable insertion sort), which is immaterial to every
property below except tie order. -/
def rank_savings_opportunities {K : Type} (savings_summary : List (SavingsRow K))
    (threshold : ℚ) : List (SavingsRow K) :=
  List.insertionSort pctDesc
    (savings_summary.filter (fun r => decide (threshold < r.SavingsPercentage)))

/-- Embeds `aggregate_by_group(data, group_column, metrics)`:
`data.copy().groupby(group_column)[metrics].agg(["sum","mean"]).reset_index()`.
One output row per distinct group key (ascending), carrying for every listed
metric the pair (sum over the group, mean over the group); the pandas mean of a
group is its sum divided by its row count. -/
def aggregate_by_group {Row K : Type} [LinearOrder K] [DecidableEq K] (data : List Row)
    (group_column : Row → K) (metrics : List (Row → ℚ)) : List (K × List (ℚ × ℚ)) :=
  (sortedKeys (data.map group_column)).map fun k =>
    let grp := data.filter (fun r => decide (group_column r = k))
    (k, metrics.map (fun m => ((grp.map m).sum, (grp.map m).sum / (grp.length : ℚ))))

/-- Pairwise score underlying the Mann-Whitney U statistic: 1 when the observation
from the first sample exceeds the one from the second, ½ on a tie, 0 otherwise. -/
def mwuScore (x y : ℚ) : ℚ :=
  if y < x then 1 else if x = y then 1/2 else 0

/-- Modelled from the spec: §4.1 delegates the "two-sided rank-sum test" to
the statistics library and does not reimplement it, so its returned
statistic is embedded here by its textbook definition.  `mannwhitneyU xs ys`
is the U statistic of the first sample — the number of pairs `(x, y)` with
`x` from the first and `y` from the second sample and `x > y`, ties counted
½ (equivalently `R₁ − n₁(n₁+1)/2` on midranks, the documented scipy return
value). -/
def mannwhitneyU (xs ys : List ℚ) : ℚ :=
  (xs.map (fun x => (ys.map (fun y => mwuScore x y)).sum)).sum

theorem mem_sortedKeys {K : Type} [LinearOrder K] [DecidableEq K] {ks : List K} {k : K} :
    k ∈ sortedKeys ks ↔ k ∈ ks := by
  rw [sortedKeys, List.mem_insertionSort, List.mem_dedup]

theorem nodup_sortedKeys {K : Type} [LinearOrder K] [DecidableEq K] (ks : List K) :
    (sortedKeys ks).Nodup :=
  ((List.perm_insertionSort _ _).nodup_iff).2 ks.nodup_dedup

theorem sorted_sortedKeys {K : Type} [LinearOrder K] [DecidableEq K] (ks : List K) :
    (sortedKeys ks).Sorted (· ≤ ·) :=
  List.sorted_insertionSort _ _

theorem mwuScore_add_swap (x y : ℚ) : mwuScore x y + mwuScore y x = 1 := by
  rcases lt_trichotomy x y with h | h | h
  · rw [mwuScore, if_neg (not_lt.2 h.le), if_neg h.ne, mwuScore, if_pos h]
    norm_num
  · subst h
    rw [mwuScore, if_neg (lt_irrefl x), if_pos rfl]
    norm_num
  · rw [mwuScore, if_pos h, mwuScore, if_neg (not_lt.2 h.le), if_neg h.ne]
    norm_num

theorem sum_map_split {α : Type} (l : List α) (f g : α → ℚ) :
    (l.map (fun a => f a + g a)).sum = (l.map f).sum + (l.map g).sum := by
  induction l with
  | nil => simp
  | cons a l ih => simp only [List.map_cons, List.sum_cons, ih]; ring

theorem mwuScore_sum_swap (x : ℚ) (ys : List ℚ) :
    (ys.map (fun y => mwuScore x y)).sum + (ys.map (fun y => mwuScore y x)).sum =
      (ys.length : ℚ) := by
  induction ys with
  | nil => simp
  | cons y ys ih =>
      simp only [List.map_cons, List.sum_cons, List.length_cons]
      push_cast
      have hxy := mwuScore_add_swap x y
      linarith

/-- Exchanging the two samples sends the U statistic to `n₁ · n₂ − U`: the
U statistics of the two samples always sum to the number of cross-sample pairs. -/
theorem mannwhitneyU_add_swap (xs ys : List ℚ) :
    mannwhitneyU xs ys + mannwhitneyU ys xs = (xs.length : ℚ) * (ys.length : ℚ) := by
  induction xs with
  | nil => simp [mannwhitneyU]
  | cons x xs ih =>
      have hsplit : mannwhitneyU ys (x :: xs) =
          (ys.map (fun y => mwuScore y x)).sum + mannwhitneyU ys xs := by
        rw [mannwhitneyU]
        simp only [List.map_cons, List.sum_cons]
        exact sum_map_split ys (fun y => mwuScore y x)
          (fun y => (xs.map (fun z => mwuScore y z)).sum)
      have hcons : mannwhitneyU (x :: xs) ys =
          (ys.map (fun y => mwuScore x y)).sum + mannwhitneyU xs ys := by
        rw [mannwhitneyU, List.map_cons, List.sum_cons]
        rfl
      have hpair := mwuScore_sum_swap x ys
      rw [hcons, hsplit]
      push_cast [List.length_cons]
      have hexp : ((xs.length : ℚ) + 1) * (ys.length : ℚ) =
          (xs.length : ℚ) * (ys.length : ℚ) + (ys.length : ℚ) := by ring
      rw [hexp]
      linarith

/-- C1: every `TestResult` returned by any of the four runners has
`p_value ∈ [0, 1]` (inherited from the contract of the delegated routine that a
p-value lies in [0,1], stated as a hypothesis on the routine output) and
`significant` true exactly when `p_value < 0.05`, with the threshold the
fixed literal `0.05`; in particular `p_value = 0.05` gives
`significant = false`. -/
theorem testResult_p_value_range_and_significance {Row Table : Type}
    (ttest_ind mwu : List ℚ → List ℚ → ℚ × ℚ) (chi2 : Table → ℚ × ℚ)
    (f_oneway : List (List ℚ) → ℚ × ℚ)
    (ga gb : List Row) (metric : Row → ℚ) (tbl : Table) (gs : List (List ℚ))
    (ht : 0 ≤ (ttest_ind (ga.map metric) (gb.map metric)).2 ∧
          (ttest_ind (ga.map metric) (gb.map metric)).2 ≤ 1)
    (hc : 0 ≤ (chi2 tbl).2 ∧ (chi2 tbl).2 ≤ 1)
    (ha : 0 ≤ (f_oneway gs).2 ∧ (f_oneway gs).2 ≤ 1)
    (hm : 0 ≤ (mwu (ga.map metric) (gb.map metric)).2 ∧
          (mwu (ga.map metric) (gb.map metric)).2 ≤ 1) :
    (∀ r ∈ [perform_t_test ttest_ind ga gb metric,
            perform_chi2_test chi2 tbl,
            perform_anova_test f_oneway gs,
            perform_mannwhitneyu_test mwu ga gb metric],
        (0 ≤ r.p_value ∧ r.p_value ≤ 1) ∧
        (r.significant = true ↔ r.p_value < 5/100) ∧
        (r.p_value = 5/100 → r.significant = false)) := by
  intro r hr
  have hsig : ∀ sp : ℚ × ℚ, ((mkTestResult sp).significant = true ↔ sp.2 < 5/100) := by
    intro sp; simp [mkTestResult]
  simp only [List.mem_cons, List.mem_singleton, List.not_mem_nil, or_false] at hr
  rcases hr with rfl | rfl | rfl | rfl
  all_goals
    refine ⟨by assumption, hsig _, fun hp => ?_⟩
  all_goals
    simp only [perform_t_test, perform_chi2_test, perform_anova_test,
      perform_mannwhitneyu_test, mkTestResult] at hp ⊢
  all_goals
    rw [hp]
  all_goals
    simp

/-- Closed instantiation of C1 at concrete routines and samples, read off for
the chi-squared runner whose routine returns exactly `p_value = 0.05`: the
p-value is in range and the result is not significant. -/
theorem testResult_p_value_range_and_significance_witness :
    (0 ≤ (@perform_chi2_test (List (List ℕ))
            (fun _ => ((3 : ℚ), 5/100)) [[1, 2], [3, 4]]).p_value ∧
      (@perform_chi2_test (List (List ℕ))
            (fun _ => ((3 : ℚ), 5/100)) [[1, 2], [3, 4]]).p_value ≤ 1) ∧
    (@perform_chi2_test (List (List ℕ))
            (fun _ => ((3 : ℚ), 5/100)) [[1, 2], [3, 4]]).significant = false := by
  have h := @testResult_p_value_range_and_significance ℚ (List (List ℕ))
    (fun _ _ => (2, 1/100)) (fun _ _ => (4, 1)) (fun _ => ((3 : ℚ), 5/100))
    (fun _ => (1, 1/2)) [1, 2] [3, 4] id [[1, 2], [3, 4]] [[1, 2], [3, 4]]
    (by norm_num) (by norm_num) (by norm_num) (by norm_num)
    (perform_chi2_test (fun _ => ((3 : ℚ), 5/100)) [[1, 2], [3, 4]]) (by simp)
  exact ⟨h.1, h.2.2 rfl⟩

/-- C2: `calculate_cost_savings` returns one row per distinct `group_col`
value with the group key as a regular field of the row; TotalCost and
TotalClaims are the per-group sums of the cost and claim columns,
SavingsPotential is their difference and SavingsPercentage is
SavingsPotential / TotalCost × 100; and on the three-row Province
example it produces exactly the two expected rows (the exact value 160/3
printing as 53.33). -/
theorem calculate_cost_savings_spec :
    (∀ (Row K : Type) [LinearOrder K] [DecidableEq K] (data : List Row) (group_col : Row → K)
       (cost_col claim_col : Row → ℚ),
       ((calculate_cost_savings data group_col cost_col claim_col).map SavingsRow.key).Nodup ∧
       (∀ k, k ∈ (calculate_cost_savings data group_col cost_col claim_col).map SavingsRow.key ↔
             k ∈ data.map group_col) ∧
       (∀ r ∈ calculate_cost_savings data group_col cost_col claim_col,
          r.TotalCost =
            ((data.filter (fun row => decide (group_col row = r.key))).map cost_col).sum ∧
          r.TotalClaims =
            ((data.filter (fun row => decide (group_col row = r.key))).map claim_col).sum ∧
          r.SavingsPotential = r.TotalCost - r.TotalClaims ∧
          r.SavingsPercentage = r.SavingsPotential / r.TotalCost * 100)) ∧
    calculate_cost_savings provinceExample Prod.fst (fun r => r.2.1) (fun r => r.2.2) =
      [⟨"A", 150, 70, 80, 160/3⟩, ⟨"B", 200, 250, -50, -25⟩] := by
  constructor
  · intro Row K _ _ data group_col cost_col claim_col
    have hkeys : (calculate_cost_savings data group_col cost_col claim_col).map
        SavingsRow.key = sortedKeys (data.map group_col) := by
      rw [calculate_cost_savings, List.map_map]
      have hcomp : (SavingsRow.key ∘ fun k =>
          let grp := data.filter (fun r => decide (group_col r = k))
          let tc := (grp.map cost_col).sum
          let tcl := (grp.map claim_col).sum
          SavingsRow.mk k tc tcl (tc - tcl) ((tc - tcl) / tc * 100)) = id :=
        funext fun k => rfl
      rw [hcomp, List.map_id]
    refine ⟨?_, ?_, ?_⟩
    · rw [hkeys]; exact nodup_sortedKeys _
    · intro k; rw [hkeys, mem_sortedKeys]
    · intro r hr
      rw [calculate_cost_savings, List.mem_map] at hr
      obtain ⟨k, _, rfl⟩ := hr
      exact ⟨rfl, rfl, rfl, rfl⟩
  · have hdedup : (provinceExample.map Prod.fst).dedup = ["A", "B"] := by
      simp [provinceExample, List.dedup_cons_of_mem, List.dedup_cons_of_not_mem]
    have hsort : sortedKeys (provinceExample.map Prod.fst) = ["A", "B"] := by
      rw [sortedKeys, hdedup]
      have hAB : "A" ≤ "B" := le_of_lt (by rw [String.lt_iff_toList_lt]; decide)
      simp [List.insertionSort, List.orderedInsert, hAB]
    rw [calculate_cost_savings, hsort]
    have hfA : provinceExample.filter (fun r => decide (Prod.fst r = "A")) =
        [("A", 100, 40), ("A", 50, 30)] := by
      simp [provinceExample]
    have hfB : provinceExample.filter (fun r => decide (Prod.fst r = "B")) =
        [("B", 200, 250)] := by
      simp [provinceExample]
    simp only [List.map_cons, List.map_nil, hfA, hfB]
    norm_num

/-- Closed instantiation of C2: on the Province example the output group keys
are without duplicates. -/
theorem calculate_cost_savings_spec_witness :
    ((calculate_cost_savings provinceExample Prod.fst (fun r => r.2.1)
        (fun r => r.2.2)).map SavingsRow.key).Nodup :=
  (calculate_cost_savings_spec.1 (String × ℚ × ℚ) String provinceExample Prod.fst
    (fun r => r.2.1) (fun r => r.2.2)).1

/-- C3: `rank_savings_opportunities` returns exactly the rows with
SavingsPercentage strictly above the threshold (as a multiset: a permutation
of the filtered rows, hence also pointwise membership), in non-increasing
order of SavingsPercentage; composed after `calculate_cost_savings` with
threshold 0 every returned row has positive SavingsPercentage. -/
theorem rank_savings_opportunities_spec :
    (∀ (K : Type) (summary : List (SavingsRow K)) (threshold : ℚ),
       (rank_savings_opportunities summary threshold).Perm
         (summary.filter (fun r => decide (threshold < r.SavingsPercentage))) ∧
       (∀ r, r ∈ rank_savings_opportunities summary threshold ↔
             r ∈ summary ∧ threshold < r.SavingsPercentage) ∧
       (rank_savings_opportunities summary threshold).Pairwise
         (fun r s => s.SavingsPercentage ≤ r.SavingsPercentage)) ∧
    (∀ (Row K : Type) [LinearOrder K] [DecidableEq K] (data : List Row)
       (group_col : Row → K) (cost_col claim_col : Row → ℚ),
       ∀ r ∈ rank_savings_opportunities (calculate_cost_savings data group_col
               cost_col claim_col) 0,
         0 < r.SavingsPercentage) := by
  constructor
  · intro K summary threshold
    refine ⟨List.perm_insertionSort _ _, ?_, ?_⟩
    · intro r
      rw [rank_savings_opportunities, List.mem_insertionSort, List.mem_filter,
        decide_eq_true_eq]
    · exact List.sorted_insertionSort pctDesc _
  · intro Row K _ _ data group_col cost_col claim_col r hr
    rw [rank_savings_opportunities, List.mem_insertionSort, List.mem_filter,
      decide_eq_true_eq] at hr
    exact hr.2

/-- Closed instantiation of C3: ranking a one-row summary at threshold 0
permutes the filtered rows. -/
theorem rank_savings_opportunities_spec_witness :
    (rank_savings_opportunities [SavingsRow.mk (0 : ℕ) 1 1 0 10] 0).Perm
      ([SavingsRow.mk (0 : ℕ) 1 1 0 10].filter
        (fun r => decide ((0 : ℚ) < r.SavingsPercentage))) :=
  (rank_savings_opportunities_spec.1 ℕ [SavingsRow.mk (0 : ℕ) 1 1 0 10] 0).1

/-- C5: `aggregate_by_group` has one row per distinct `group_column` value,
the rows appear in ascending order of the group key, and for every listed
metric the "sum" entry is the arithmetic sum of the metric over the rows of the
group while the "mean" entry is that sum divided by the row count of the group. -/
theorem aggregate_by_group_spec (Row K : Type) [LinearOrder K] [DecidableEq K]
    (data : List Row) (group_column : Row → K) (metrics : List (Row → ℚ)) :
    ((aggregate_by_group data group_column metrics).map Prod.fst).Nodup ∧
    ((aggregate_by_group data group_column metrics).map Prod.fst).Sorted (· ≤ ·) ∧
    (∀ k, k ∈ (aggregate_by_group data group_column metrics).map Prod.fst ↔
          k ∈ data.map group_column) ∧
    (∀ p ∈ aggregate_by_group data group_column metrics,
       p.2 = metrics.map (fun m =>
         (((data.filter (fun r => decide (group_column r = p.1))).map m).sum,
          ((data.filter (fun r => decide (group_column r = p.1))).map m).sum /
            (((data.filter (fun r => decide (group_column r = p.1))).length : ℚ))))) := by
  have hkeys : (aggregate_by_group data group_column metrics).map Prod.fst =
      sortedKeys (data.map group_column) := by
    rw [aggregate_by_group, List.map_map]
    have hcomp : (Prod.fst ∘ fun k =>
        let grp := data.filter (fun r => decide (group_column r = k))
        (k, metrics.map (fun m => ((grp.map m).sum, (grp.map m).sum / (grp.length : ℚ))))) =
        id := funext fun k => rfl
    rw [hcomp, List.map_id]
  refine ⟨?_, ?_, ?_, ?_⟩
  · rw [hkeys]; exact nodup_sortedKeys _
  · rw [hkeys]; exact sorted_sortedKeys _
  · intro k; rw [hkeys, mem_sortedKeys]
  · intro p hp
    rw [aggregate_by_group, List.mem_map] at hp
    obtain ⟨k, _, rfl⟩ := hp
    rfl

/-- Closed instantiation of C5 on a one-row dataset with one metric: the
output group keys are without duplicates. -/
theorem aggregate_by_group_spec_witness :
    ((aggregate_by_group [((1 : ℕ), (2 : ℚ))] Prod.fst [Prod.snd]).map Prod.fst).Nodup :=
  (aggregate_by_group_spec (ℕ × ℚ) ℕ [((1 : ℕ), (2 : ℚ))] Prod.fst [Prod.snd]).1

/-- C6: with disjoint value sets, `segment_data` puts every input row in at
most one of the two returned groups, and a row belongs to one of the groups
exactly when it is an input row whose `column` value lies in one of the two
value sets. -/
theorem segment_data_partition {Row V : Type} [DecidableEq V]
    (data : List Row) (column : Row → V) (va vb : List V)
    (hdisj : ∀ v, v ∈ va → v ∉ vb) :
    (∀ r, ¬(r ∈ (segment_data data column va vb).1 ∧
            r ∈ (segment_data data column va vb).2)) ∧
    (∀ r, (r ∈ (segment_data data column va vb).1 ∨
           r ∈ (segment_data data column va vb).2) ↔
          (r ∈ data ∧ (column r ∈ va ∨ column r ∈ vb))) := by
  constructor
  · rintro r ⟨ha, hb⟩
    rw [segment_data, List.mem_filter, decide_eq_true_eq] at ha hb
    exact hdisj _ ha.2 hb.2
  · intro r
    simp only [segment_data, List.mem_filter, decide_eq_true_eq]
    tauto

/-- Closed instantiation of C6: three rows keyed by strings, split on the
disjoint value sets `{"x"}` and `{"y"}`, read off at the first row. -/
theorem segment_data_partition_witness :
    (¬(("x", (1 : ℚ)) ∈ (segment_data [("x", (1 : ℚ)), ("y", 2), ("z", 3)]
          Prod.fst ["x"] ["y"]).1 ∧
       ("x", (1 : ℚ)) ∈ (segment_data [("x", (1 : ℚ)), ("y", 2), ("z", 3)]
          Prod.fst ["x"] ["y"]).2)) ∧
    ((("x", (1 : ℚ)) ∈ (segment_data [("x", (1 : ℚ)), ("y", 2), ("z", 3)]
          Prod.fst ["x"] ["y"]).1 ∨
      ("x", (1 : ℚ)) ∈ (segment_data [("x", (1 : ℚ)), ("y", 2), ("z", 3)]
          Prod.fst ["x"] ["y"]).2) ↔
     (("x", (1 : ℚ)) ∈ [("x", (1 : ℚ)), ("y", 2), ("z", 3)] ∧
      (("x", (1 : ℚ)).1 ∈ ["x"] ∨ ("x", (1 : ℚ)).1 ∈ ["y"]))) := by
  have h := segment_data_partition [("x", (1 : ℚ)), ("y", 2), ("z", 3)]
    Prod.fst ["x"] ["y"] (by decide)
  exact ⟨h.1 ("x", (1 : ℚ)), h.2 ("x", (1 : ℚ))⟩

/-- C7 counterexample: with the delegated rank-sum routine returning the
Mann-Whitney U statistic of its first sample (and, as its p component, the
exact two-sided p-value 1 that single-observation samples [1] vs [2]
produce), swapping `group_a = [1]` and `group_b = [2]` in
`perform_mannwhitneyu_test` changes the returned stat from 0 to 1 — not to
`-0`: the U statistic is not sign-inverted by the swap (its p_value is
unchanged, as the same inputs also show). -/
theorem mannwhitneyu_swap_not_sign_inverted :
    (perform_mannwhitneyu_test (fun xs ys => (mannwhitneyU xs ys, 1))
        [(2 : ℚ)] [(1 : ℚ)] id).stat ≠
      -(perform_mannwhitneyu_test (fun xs ys => (mannwhitneyU xs ys, 1))
        [(1 : ℚ)] [(2 : ℚ)] id).stat ∧
    (perform_mannwhitneyu_test (fun xs ys => (mannwhitneyU xs ys, 1))
        [(2 : ℚ)] [(1 : ℚ)] id).p_value =
      (perform_mannwhitneyu_test (fun xs ys => (mannwhitneyU xs ys, 1))
        [(1 : ℚ)] [(2 : ℚ)] id).p_value := by
  constructor
  · simp only [perform_mannwhitneyu_test, mkTestResult, mannwhitneyU, mwuScore,
      List.map_cons, List.map_nil, List.sum_cons, List.sum_nil]
    norm_num
  · rfl

/-- C7 as amended: swapping `group_a` and `group_b` leaves `p_value` — and
hence `significant` — unchanged in `perform_t_test` and
`perform_mannwhitneyu_test`, and inverts the sign of the t-test stat
(hypotheses `htstat`, `htp`, `hmp` are the documented
two-sided symmetry contract of the delegated routines); the Mann-Whitney stat,
however, is not sign-inverted but sent to `n_a · n_b − U` (hypothesis
`hmstat` says the routine returns the U statistic of its first sample). -/
theorem test_runner_swap_symmetry {Row : Type}
    (ttest_ind mwu : List ℚ → List ℚ → ℚ × ℚ)
    (group_a group_b : List Row) (metric : Row → ℚ)
    (htstat : (ttest_ind (group_b.map metric) (group_a.map metric)).1 =
              -(ttest_ind (group_a.map metric) (group_b.map metric)).1)
    (htp : (ttest_ind (group_b.map metric) (group_a.map metric)).2 =
           (ttest_ind (group_a.map metric) (group_b.map metric)).2)
    (hmp : (mwu (group_b.map metric) (group_a.map metric)).2 =
           (mwu (group_a.map metric) (group_b.map metric)).2)
    (hmstat : ∀ xs ys : List ℚ, (mwu xs ys).1 = mannwhitneyU xs ys) :
    ((perform_t_test ttest_ind group_b group_a metric).p_value =
       (perform_t_test ttest_ind group_a group_b metric).p_value ∧
     (perform_t_test ttest_ind group_b group_a metric).significant =
       (perform_t_test ttest_ind group_a group_b metric).significant ∧
     (perform_t_test ttest_ind group_b group_a metric).stat =
       -(perform_t_test ttest_ind group_a group_b metric).stat) ∧
    ((perform_mannwhitneyu_test mwu group_b group_a metric).p_value =
       (perform_mannwhitneyu_test mwu group_a group_b metric).p_value ∧
     (perform_mannwhitneyu_test mwu group_b group_a metric).significant =
       (perform_mannwhitneyu_test mwu group_a group_b metric).significant ∧
     (perform_mannwhitneyu_test mwu group_b group_a metric).stat =
       (group_a.length : ℚ) * (group_b.length : ℚ) -
         (perform_mannwhitneyu_test mwu group_a group_b metric).stat) := by
  refine ⟨⟨htp, ?_, htstat⟩, hmp, ?_, ?_⟩
  · simp only [perform_t_test, mkTestResult]
    rw [htp]
  · simp only [perform_mannwhitneyu_test, mkTestResult]
    rw [hmp]
  · simp only [perform_mannwhitneyu_test, mkTestResult]
    rw [hmstat, hmstat]
    have hswap := mannwhitneyU_add_swap (group_a.map metric) (group_b.map metric)
    rw [List.length_map, List.length_map] at hswap
    linarith

/-- Closed instantiation of the amended C7 at `group_a = [1, 2]`,
`group_b = [3]`, a sign-antisymmetric t-test routine, and the U-statistic
rank-sum routine: the swapped U statistic is `2·1 − U`, not `−U`. -/
theorem test_runner_swap_symmetry_witness :
    ((@perform_t_test ℚ (fun xs ys => (xs.sum - ys.sum, 1/2))
        [3] [1, 2] id).p_value =
       (@perform_t_test ℚ (fun xs ys => (xs.sum - ys.sum, 1/2))
        [1, 2] [3] id).p_value ∧
     (@perform_t_test ℚ (fun xs ys => (xs.sum - ys.sum, 1/2))
        [3] [1, 2] id).significant =
       (@perform_t_test ℚ (fun xs ys => (xs.sum - ys.sum, 1/2))
        [1, 2] [3] id).significant ∧
     (@perform_t_test ℚ (fun xs ys => (xs.sum - ys.sum, 1/2))
        [3] [1, 2] id).stat =
       -(@perform_t_test ℚ (fun xs ys => (xs.sum - ys.sum, 1/2))
        [1, 2] [3] id).stat) ∧
    ((@perform_mannwhitneyu_test ℚ (fun xs ys => (mannwhitneyU xs ys, 1/2))
        [3] [1, 2] id).p_value =
       (@perform_mannwhitneyu_test ℚ (fun xs ys => (mannwhitneyU xs ys, 1/2))
        [1, 2] [3] id).p_value ∧
     (@perform_mannwhitneyu_test ℚ (fun xs ys => (mannwhitneyU xs ys, 1/2))
        [3] [1, 2] id).significant =
       (@perform_mannwhitneyu_test ℚ (fun xs ys => (mannwhitneyU xs ys, 1/2))
        [1, 2] [3] id).significant ∧
     (@perform_mannwhitneyu_test ℚ (fun xs ys => (mannwhitneyU xs ys, 1/2))
        [3] [1, 2] id).stat =
       (([1, 2] : List ℚ).length : ℚ) * (([3] : List ℚ).length : ℚ) -
         (@perform_mannwhitneyu_test ℚ (fun xs ys => (mannwhitneyU xs ys, 1/2))
        [1, 2] [3] id).stat) :=
  test_runner_swap_symmetry (fun xs ys => (xs.sum - ys.sum, 1/2))
    (fun xs ys => (mannwhitneyU xs ys, 1/2)) [1, 2] [3] id
    (by norm_num) rfl rfl (fun _ _ => rfl)

/-- C8: `compute_metric` with an operation outside {"mean", "sum"} silently
returns no value (Python `None`, embedded as `Option.none`) instead of
raising or returning a scalar. -/
theorem compute_metric_unknown_operation_none {Row V : Type} [DecidableEq V]
    (data : List Row) (column : Row → V) (condition : V) (metric_col : Row → ℚ)
    (operation : String) (hm : operation ≠ "mean") (hs : operation ≠ "sum") :
    compute_metric data column condition metric_col operation = none := by
  simp [compute_metric, hm, hs]

/-- Closed instantiation of C8 at operation `"median"` on a one-row dataset. -/
theorem compute_metric_unknown_operation_none_witness :
    compute_metric [((1 : ℚ), (2 : ℚ))] Prod.fst 1 Prod.snd "median" = none :=
  compute_metric_unknown_operation_none [((1 : ℚ), (2 : ℚ))] Prod.fst 1 Prod.snd
    "median" (by decide) (by decide)

/-- C10: when no row satisfies `column == condition`, `compute_metric` still
returns (it cannot raise in the embedding, being a total function): the
`"sum"` reduction yields the number 0 and the `"mean"` reduction yields NaN. -/
theorem compute_metric_empty_subset {Row V : Type} [DecidableEq V]
    (data : List Row) (column : Row → V) (condition : V) (metric_col : Row → ℚ)
    (hempty : ∀ r ∈ data, column r ≠ condition) :
    compute_metric data column condition metric_col "sum" = some (PdScalar.num 0) ∧
    compute_metric data column condition metric_col "mean" = some PdScalar.nan := by
  have hfilter : data.filter (fun r => decide (column r = condition)) = [] := by
    rw [List.filter_eq_nil_iff]
    intro r hr
    simpa using hempty r hr
  constructor
  · simp [compute_metric, hfilter, seriesSum]
  · simp [compute_metric, hfilter, seriesMean]

/-- Closed instantiation of C10: a two-row dataset in which no row has key 7. -/
theorem compute_metric_empty_subset_witness :
    compute_metric [((1 : ℚ), (2 : ℚ)), (3, 4)] Prod.fst 7 Prod.snd "sum" =
      some (PdScalar.num 0) ∧
    compute_metric [((1 : ℚ), (2 : ℚ)), (3, 4)] Prod.fst 7 Prod.snd "mean" =
      some PdScalar.nan :=
  compute_metric_empty_subset [((1 : ℚ), (2 : ℚ)), (3, 4)] Prod.fst 7 Prod.snd
    (by decide)
